import Mathlib

/-!
# Verification of the data presentation pipeline

A shallow embedding, in Lean 4, of the algorithmic core of the repository:
the reactive data store (`DataController`), the hierarchical grouping engine
(`NestedAccordionRenderer.groupByLevels` / `countItems` / `getItems`), the
column width resolver (`ColumnWidthUtils.computeAutoWidths`) and the plugin
hook runner (`RendererUtils.runHook`).

JavaScript values held in records are modelled by the inductive type `Value`
(string, number, boolean, null).  JS numbers are modelled by the unnormalized
rational type `Q`; `NaN` is modelled by `Option Q` at the points where the
source can produce it (`parseFloat`, `parseInt`).  JS `undefined` and `null`
are merged into `Value.null` (none of the verified properties distinguishes
them).  JS string formatting of numbers (`String(x)`) is modelled exactly for
integral values, which are the only numeric values stringified by the
verified properties.
-/

/-- An unnormalized rational: the model of a finite JS number.  Kept
unnormalized (no gcd) so that every arithmetic operation is structurally
computable by the kernel; every value built by the pipeline has a positive
denominator.  Semantic comparisons go through cross-multiplication. -/
structure Q where
  n : Int
  d : Nat
deriving DecidableEq, Repr

namespace Q

/-- Embed an integer. -/
def ofInt (i : Int) : Q := ⟨i, 1⟩

/-- Embed a natural number. -/
def ofNat (m : Nat) : Q := ⟨(m : Int), 1⟩

/-- Addition (unnormalized). -/
def add (a b : Q) : Q := ⟨a.n * (b.d : Int) + b.n * (a.d : Int), a.d * b.d⟩

/-- Multiplication (unnormalized). -/
def mul (a b : Q) : Q := ⟨a.n * b.n, a.d * b.d⟩

/-- Division by a power of ten. -/
def divPow10 (a : Q) (k : Nat) : Q := ⟨a.n, a.d * 10 ^ k⟩

/-- Strict order by cross-multiplication (valid: denominators positive). -/
def blt (a b : Q) : Bool := a.n * (b.d : Int) < b.n * (a.d : Int)

/-- Non-strict order by cross-multiplication. -/
def ble (a b : Q) : Bool := a.n * (b.d : Int) ≤ b.n * (a.d : Int)

/-- JS `Math.max` on two numbers. -/
def qmax (a b : Q) : Q := if blt a b then b else a

/-- JS `Math.min` on two numbers. -/
def qmin (a b : Q) : Q := if blt b a then b else a

/-- Floor to an integer. -/
def floor (a : Q) : Int := a.n.fdiv (a.d : Int)

/-- Ceiling to an integer (`Math.ceil`). -/
def ceil (a : Q) : Int := -((-a.n).fdiv (a.d : Int))

/-- Subtraction (unnormalized). -/
def sub (a b : Q) : Q := ⟨a.n * (b.d : Int) - b.n * (a.d : Int), a.d * b.d⟩

/-- Semantic value in `ℚ` (for theorem statements only). -/
def toRat (a : Q) : Rat := (a.n : Rat) / (a.d : Rat)

end Q

instance (k : Nat) : OfNat Q k := ⟨Q.ofNat k⟩
instance : Add Q := ⟨Q.add⟩
instance : Mul Q := ⟨Q.mul⟩
instance : Sub Q := ⟨Q.sub⟩

/-- A JavaScript primitive value as stored in a data record. -/
inductive Value where
  | str (s : String)
  | num (q : Q)
  | bool (b : Bool)
  | null
deriving DecidableEq, Repr

/-- JS truthiness of a primitive value (`0`, `false`, `""`, `null`/`undefined`
are falsy; `NaN` does not occur as a stored record value). -/
def truthy : Value → Bool
  | .str s => s ≠ ""
  | .num q => q.n ≠ 0
  | .bool b => b
  | .null => false

/-- JS `String(v)` for a primitive value.  Integral numbers print as in JS;
(non-integral rationals fall back to `Rat`'s own printer, a corner no verified
property exercises).  `undefined` is merged into `null`. -/
def jsToString : Value → String
  | .str s => s
  | .num q => if q.d = 1 then toString q.n else toString q.n ++ "/" ++ toString q.d
  | .bool b => if b then "true" else "false"
  | .null => "null"

/-- JS `String.prototype.toLowerCase`, modelled on the ASCII range (the
verified properties only lowercase ASCII data). -/
def jsToLower (s : String) : String :=
  String.mk (s.toList.map Char.toLower)

/-- One data record: a JS object, i.e. a finite map from field name to
primitive value, represented as an association list with distinct keys
(JS objects cannot hold a key twice). -/
def Rec := List (String × Value)
deriving DecidableEq, Repr

/-- First binding of a key in an association list (JS property lookup). -/
def findKey {α : Type} (l : List (String × α)) (k : String) : Option α :=
  match l with
  | [] => none
  | (k2, v) :: rest => if k2 = k then some v else findKey rest k

/-- `item[field]` with JS `undefined` (absent key) merged into `Value.null`. -/
def getField (r : Rec) (f : String) : Value :=
  (findKey r f).getD .null

/-- `item[field]` distinguishing an absent key (`none` = JS `undefined`). -/
def getFieldOpt (r : Rec) (f : String) : Option Value :=
  findKey r f

/-- Lexicographic (code-unit) order on character lists: the semantics of the
JS `<` operator on strings. -/
def ltChars : List Char → List Char → Bool
  | [], [] => false
  | [], _ :: _ => true
  | _ :: _, [] => false
  | a :: as, b :: bs => if a < b then true else if b < a then false else ltChars as bs

/-- JS `hay.includes(needle)`: substring test. -/
def containsSub (hay needle : List Char) : Bool :=
  hay.tails.any (fun t => needle.isPrefixOf t)

/-- Whitespace as matched by the `\s` regex class / skipped by `parseFloat`
(restricted to the ASCII whitespace that the verified data can contain). -/
def jsIsSpace (c : Char) : Bool :=
  c = ' ' || c = '\t' || c = '\n' || c = '\r'

/-- Numeric value of a digit run (most significant first). -/
def digitsToNat (cs : List Char) : Nat :=
  cs.foldl (fun n c => n * 10 + (c.toNat - '0'.toNat)) 0

/-- Exponent suffix accepted by `parseFloat`: `e`/`E`, optional sign, digits.
Returns the exponent and the remaining characters; a malformed suffix is
ignored (exponent 0), exactly as `parseFloat` stops before it. -/
def parseExpSuffix (cs : List Char) : Int × List Char :=
  match cs with
  | 'e' :: rest => parseExpDigits rest cs
  | 'E' :: rest => parseExpDigits rest cs
  | _ => (0, cs)
where
  parseExpDigits (rest orig : List Char) : Int × List Char :=
    let (sign, rest2) :=
      match rest with
      | '+' :: t => ((1 : Int), t)
      | '-' :: t => ((-1 : Int), t)
      | _ => ((1 : Int), rest)
    let ds := rest2.takeWhile Char.isDigit
    if ds.isEmpty then (0, orig)
    else (sign * (digitsToNat ds : Int), rest2.drop ds.length)

/-- Multiply by a signed power of ten. -/
def mulPow10 (q : Q) (e : Int) : Q :=
  if 0 ≤ e then q * Q.ofNat (10 ^ e.toNat) else q.divPow10 (-e).toNat

/-- Core of JS `parseFloat` after whitespace skipping: parses an optional
sign, a decimal mantissa and an optional exponent from the front of the
input, returning the value and the unconsumed suffix, or `none` (JS `NaN`)
when no digit is consumed.  (`Infinity` literals are not modelled; no
verified property feeds them in.) -/
def parseFloatCore (cs : List Char) : Option (Q × List Char) :=
  let (sign, cs1) :=
    match cs with
    | '+' :: t => (Q.ofInt 1, t)
    | '-' :: t => (Q.ofInt (-1), t)
    | _ => (Q.ofInt 1, cs)
  let intDs := cs1.takeWhile Char.isDigit
  let cs2 := cs1.drop intDs.length
  let (fracDs, cs3) :=
    match cs2 with
    | '.' :: t => (t.takeWhile Char.isDigit, (t.takeWhile Char.isDigit).length |> t.drop)
    | _ => ([], cs2)
  if intDs.isEmpty ∧ fracDs.isEmpty then none
  else
    let mant : Q :=
      Q.ofNat (digitsToNat intDs) + (Q.ofNat (digitsToNat fracDs)).divPow10 fracDs.length
    let (e, cs4) := parseExpSuffix cs3
    some (sign * mulPow10 mant e, cs4)

/-- JS `parseFloat(s)`: skip leading whitespace, parse a leading number,
ignore trailing garbage; `none` models `NaN`. -/
def parseFloatJS (s : String) : Option Q :=
  (parseFloatCore (s.toList.dropWhile jsIsSpace)).map (·.1)

/-- Index of the first occurrence of `c` in `cs`, `-1` when absent
(JS `String.prototype.indexOf`). -/
def firstIdx (cs : List Char) (c : Char) : Int :=
  match cs with
  | [] => -1
  | a :: t =>
    if a = c then 0
    else
      let r := firstIdx t c
      if r < 0 then -1 else r + 1

/-- `val.replace(/[R$\s.]/g, '')`: drop every `R`, `$`, whitespace and dot. -/
def stripMoneyChars (cs : List Char) : List Char :=
  cs.filter (fun c => ¬ (c = 'R' ∨ c = '$' ∨ c = '.' ∨ jsIsSpace c = true))

/-- `val.replace(',', '.')`: JS `replace` with a string pattern rewrites only
the first occurrence. -/
def replaceFirstComma : List Char → List Char
  | [] => []
  | c :: t => if c = ',' then '.' :: t else c :: replaceFirstComma t

/-- Insert `x` after every element `y` of an already-sorted list with
`le y x` (the stable insertion step). -/
def insertR {α : Type} (le : α → α → Bool) (x : α) : List α → List α
  | [] => [x]
  | y :: t => if le y x then y :: insertR le x t else x :: y :: t

/-- A stable comparator sort: the denotation of ES2019
`Array.prototype.sort(comparator)` (stable; `a` precedes `b` when
`comparator(a,b) <= 0`). -/
def sortJS {α : Type} (le : α → α → Bool) (l : List α) : List α :=
  l.foldl (fun acc x => insertR le x acc) []

namespace DataController

/-- The speculative currency parse inside `DataController.applyFilters`
(`parseMoney`).  Numbers pass through; non-strings are `NaN`; a string whose
first `-` occurs at an index `> 0` is rejected; otherwise `R$`, whitespace
and thousands dots are stripped, the first comma becomes a decimal point and
the result goes through `parseFloat`.  `none` models `NaN`. -/
def parseMoney : Value → Option Q
  | .num q => some q
  | .str s =>
    if firstIdx s.toList '-' > 0 then none
    else parseFloatJS (String.mk (replaceFirstComma (stripMoneyChars s.toList)))
  | .bool _ => none
  | .null => none

/-- The comparator built inside `applyFilters` when sorting is active.
`a[field]`/`b[field]` with `null`/`undefined` coalesced to `''`; both sides
are speculatively parsed by `parseMoney`; if both parse and neither raw value
is the string `''`, numbers are compared, otherwise the case-folded
stringifications are compared code-unit-lexicographically.  Returns the JS
comparator result (-1/0/1, flipped for `'desc'`). -/
def sortCmp (field direction : String) (a b : Rec) : Int :=
  let vA := match getField a field with | .null => Value.str "" | v => v
  let vB := match getField b field with | .null => Value.str "" | v => v
  let numA := parseMoney vA
  let numB := parseMoney vB
  let lt : Bool × Bool :=
    match numA, numB with
    | some qA, some qB =>
      if vA ≠ Value.str "" ∧ vB ≠ Value.str "" then (Q.blt qA qB, Q.blt qB qA)
      else
        (ltChars (jsToLower (jsToString vA)).toList (jsToLower (jsToString vB)).toList,
         ltChars (jsToLower (jsToString vB)).toList (jsToLower (jsToString vA)).toList)
    | _, _ =>
      (ltChars (jsToLower (jsToString vA)).toList (jsToLower (jsToString vB)).toList,
       ltChars (jsToLower (jsToString vB)).toList (jsToLower (jsToString vA)).toList)
  if lt.1 then (if direction = "asc" then -1 else 1)
  else if lt.2 then (if direction = "asc" then 1 else -1)
  else 0

/-- The per-field search test inside the filter predicate of `applyFilters`:
the field must pass the visibility predicate, its raw value must be truthy,
and its case-folded stringification must contain the (already lowercased)
term as a substring. -/
def fieldHit (visible : Option (String → Bool)) (term : String)
    (f : String) (v : Value) : Bool :=
  (match visible with | some p => p f | none => true) &&
    (truthy v && containsSub (jsToLower (jsToString v)).toList term.toList)

/-- The filter predicate of `applyFilters` for one record: with a non-empty
`searchFields` list only those fields are tested (via `item[field]`);
otherwise every own field of the record is tested. -/
def matchesItem (searchFields : List String) (visible : Option (String → Bool))
    (term : String) (item : Rec) : Bool :=
  if searchFields ≠ [] then
    searchFields.any (fun f => fieldHit visible term f (getField item f))
  else
    item.any (fun kv => fieldHit visible term kv.1 kv.2)

/-- The mutable state of one `DataController` instance.  The
`onDataChange`/`onSelectionChange` callbacks and debug logging are external
effects with no bearing on the state and are not modelled; `notifyChange` is
a state no-op.  `pagination.{enabled,pageSize,currentPage}` are flattened
into the structure. -/
structure Store where
  data : List Rec
  filteredData : List Rec
  selectedIds : List String
  keyField : String
  searchFields : List String
  isFieldVisible : Option (String → Bool)
  searchTerm : Option String
  sortField : Option String
  sortDirection : Option String
  sortCustom : Option (Rec → Rec → Int)
  pagEnabled : Bool
  pageSize : Nat
  currentPage : Nat

/-- The constructor: fresh store with empty data, page 1, no sort, no term
(`searchTerm` starts `undefined` = `none`). -/
def mkStore (keyField : String) (searchFields : List String) (pageSize : Nat) : Store :=
  { data := [], filteredData := [], selectedIds := [], keyField := keyField,
    searchFields := searchFields, isFieldVisible := none, searchTerm := none,
    sortField := none, sortDirection := none, sortCustom := none,
    pagEnabled := true, pageSize := pageSize, currentPage := 1 }

/-- The body of `applyFilters`: filter by the search term (a falsy term —
absent or `''` — keeps everything), then, when both `sortConfig.field` and
`sortConfig.direction` are truthy, stably sort with the built-in comparator.
Note: `sortConfig.customCompare` is stored by `setSort` but never read here —
the destructuring on line 125 of the source takes only `field` and
`direction`. -/
def recomputeFiltered (st : Store) : List Rec :=
  let base : List Rec :=
    match st.searchTerm with
    | none => st.data
    | some t =>
      if t = "" then st.data
      else st.data.filter (matchesItem st.searchFields st.isFieldVisible (jsToLower t))
  match st.sortField, st.sortDirection with
  | some f, some d =>
    if f ≠ "" ∧ d ≠ "" then sortJS (fun a b => sortCmp f d a b ≤ 0) base
    else base
  | _, _ => base

/-- `applyFilters`: recompute `filteredData`; `notifyChange` is external. -/
def applyFilters (st : Store) : Store :=
  { st with filteredData := recomputeFiltered st }

/-- `setData`: replace the raw dataset and reapply filters.  (The JS
non-array coercion to `[]` is a dynamic-typing guard outside the typed
model.) -/
def setData (d : List Rec) (st : Store) : Store :=
  applyFilters { st with data := d }

/-- `setSearchTerm`: no-op when the term is unchanged (strict equality, so an
initial `undefined` differs from every string); otherwise store it, reset to
page 1 and reapply filters. -/
def setSearchTerm (t : String) (st : Store) : Store :=
  if st.searchTerm = some t then st
  else applyFilters { st with searchTerm := some t, currentPage := 1 }

/-- `setSort`: store the spec (including `customCompare`) and reapply. -/
def setSort (f d : Option String) (c : Option (Rec → Rec → Int)) (st : Store) : Store :=
  applyFilters { st with sortField := f, sortDirection := d, sortCustom := c }

/-- `getTotalPages`: `Math.ceil(filteredData.length / pageSize) || 1`.
For `0 < pageSize` the natural-number form `(len + pageSize - 1) / pageSize`
is exactly the ceiling.  (JS yields `Infinity` for `pageSize = 0`, a state
the constructor and the verified properties exclude.) -/
def getTotalPages (st : Store) : Nat :=
  let c := (st.filteredData.length + st.pageSize - 1) / st.pageSize
  if c = 0 then 1 else c

/-- `goToPage`: silently ignore an out-of-range page, else move the cursor. -/
def goToPage (page : Int) (st : Store) : Store :=
  if page < 1 ∨ page > (getTotalPages st : Int) then st
  else { st with currentPage := page.toNat }

/-- `setPageSize`: set the size and reset to page 1. -/
def setPageSize (size : Nat) (st : Store) : Store :=
  { st with pageSize := size, currentPage := 1 }

/-- `getCurrentPageData`: the slice for the current cursor. -/
def getCurrentPageData (st : Store) : List Rec :=
  if st.pagEnabled then
    (st.filteredData.drop ((st.currentPage - 1) * st.pageSize)).take st.pageSize
  else st.filteredData

/-- The selection key of a record: `String(item[keyField])`. -/
def keyOfRec (keyField : String) (item : Rec) : String :=
  jsToString (getField item keyField)

/-- `Set.prototype.add` on the insertion-ordered selection set. -/
def setAdd (l : List String) (k : String) : List String :=
  if k ∈ l then l else l ++ [k]

/-- `Set.prototype.delete` on the selection set. -/
def setDel (l : List String) (k : String) : List String :=
  l.filter (fun x => x ≠ k)

/-- `toggleSelection(id)`: flip membership of `String(id)`. -/
def toggleSelection (id : Value) (st : Store) : Store :=
  let idStr := jsToString id
  if idStr ∈ st.selectedIds then { st with selectedIds := setDel st.selectedIds idStr }
  else { st with selectedIds := setAdd st.selectedIds idStr }

/-- `toggleSelectAll(shouldSelect)`: add (or remove) the key of every record
of the current filtered view. -/
def toggleSelectAll (shouldSelect : Bool) (st : Store) : Store :=
  let allIds := st.filteredData.map (keyOfRec st.keyField)
  { st with selectedIds := allIds.foldl (if shouldSelect then setAdd else setDel) st.selectedIds }

/-- `isAllSelected`: false on an empty view, else every view key selected. -/
def isAllSelected (st : Store) : Bool :=
  if st.filteredData.length = 0 then false
  else st.filteredData.all (fun item => keyOfRec st.keyField item ∈ st.selectedIds)

/-- The snapshot handed to presentation components. -/
structure Snapshot where
  pageData : List Rec
  total : Nat
  totalPages : Nat
  pagEnabled : Bool
  pageSize : Nat
  currentPage : Nat
  statsStart : Nat
  statsEnd : Nat
deriving Repr

/-- `getDataSnapshot`. -/
def getDataSnapshot (st : Store) : Snapshot :=
  { pageData := getCurrentPageData st
    total := st.filteredData.length
    totalPages := getTotalPages st
    pagEnabled := st.pagEnabled
    pageSize := st.pageSize
    currentPage := st.currentPage
    statsStart := (st.currentPage - 1) * st.pageSize + 1
    statsEnd := min (st.currentPage * st.pageSize) st.filteredData.length }

end DataController

namespace NestedAccordionRenderer

/-- A node of the grouping tree.  The source represents a leaf as a JS object
`{_isLeaf: true, items}` and a branch as a plain object whose keys are the
group keys; the inductive keeps the two shapes apart, and the query functions
below reproduce the source's untyped `node._isLeaf` probe (a branch that
happens to own a child under the key `"_isLeaf"` is mistaken for a leaf). -/
inductive GNode where
  | leaf (items : List Rec)
  | branch (children : List (String × GNode))

/-- JS `String.prototype.split` with a one-character separator, keeping
empty segments (`"".split('.')` is `[""]`). -/
def splitOnChar (sep : Char) : List Char → List (List Char)
  | [] => [[]]
  | c :: t =>
    let r := splitOnChar sep t
    if c = sep then [] :: r
    else
      match r with
      | [] => [[c]]
      | s :: rest => (c :: s) :: rest

/-- `getNestedValue(obj, path)`: split the path on `.` and walk.  Record
values are primitives, so any second step of the walk yields
`undefined`/`null` (merged into `Value.null`). -/
def getNestedValue (r : Rec) (path : String) : Value :=
  match splitOnChar '.' path.toList with
  | [] => .null
  | [f] => getField r (String.mk f)
  | _ :: _ :: _ => .null

/-- The group key of a record at one level:
`key = getNestedValue(item, field) || 'Outros'` followed by the JS object-key
string coercion. -/
def groupKey (item : Rec) (field : String) : String :=
  let v := getNestedValue item field
  if truthy v then jsToString v else "Outros"

/-- Append a key if unseen (first-seen key order of the partition). -/
def insertKey (ks : List String) (k : String) : List String :=
  if k ∈ ks then ks else ks ++ [k]

/-- The distinct group keys of `data` under `field`, in first-seen order. -/
def firstKeys (data : List Rec) (field : String) : List String :=
  data.foldl (fun ks item => insertKey ks (groupKey item field)) []

/-- The partition built by the `data.forEach` loop of `groupByLevels`: each
key maps to the records carrying it, in their original relative order.
(JS `Object.keys` fronts integer-like keys; that reordering of sibling
groups does not affect the counting and membership properties proved here.) -/
def partitionBy (data : List Rec) (field : String) : List (String × List Rec) :=
  (firstKeys data field).map (fun k => (k, data.filter (fun item => groupKey item field = k)))

/-- `groupByLevels(data, levels, currentLevel)`, with the remaining suffix of
`levels` as the recursion argument. -/
def groupByLevels (data : List Rec) : List String → GNode
  | [] => .leaf data
  | f :: rest => .branch ((partitionBy data f).map (fun kg => (kg.1, groupByLevels kg.2 rest)))

mutual
/-- `countItems(node)`: a leaf counts its items; a branch sums its children —
unless the untyped `node._isLeaf` probe finds a child under the literal key
`"_isLeaf"`, in which case the branch is mistaken for a leaf and, its `items`
property not being an array, contributes `0`. -/
def countItems : GNode → Nat
  | .leaf items => items.length
  | .branch children =>
    if (findKey children "_isLeaf").isSome then 0
    else countItemsList children

/-- Left-to-right sum of `countItems` over the children (the JS `reduce`). -/
def countItemsList : List (String × GNode) → Nat
  | [] => 0
  | kg :: rest => countItems kg.2 + countItemsList rest
end

mutual
/-- `getItems(node)`: flatten a subtree to its record list; the same
`node._isLeaf` probe makes a branch owning a `"_isLeaf"` key return its
(absent) `items` property, i.e. nothing. -/
def getItems : GNode → List Rec
  | .leaf items => items
  | .branch children =>
    if (findKey children "_isLeaf").isSome then []
    else getItemsList children

/-- Concatenation of `getItems` over the children (the JS `flatMap`). -/
def getItemsList : List (String × GNode) → List Rec
  | [] => []
  | kg :: rest => getItems kg.2 ++ getItemsList rest
end

mutual
/-- No branch of the tree owns a child under the literal key `"_isLeaf"`
(the well-formedness the untyped leaf probe silently assumes). -/
def noLeafKeyClash : GNode → Prop
  | .leaf _ => True
  | .branch children =>
    (findKey children "_isLeaf").isNone ∧ noLeafKeyClashList children

/-- `noLeafKeyClash` over a child list. -/
def noLeafKeyClashList : List (String × GNode) → Prop
  | [] => True
  | kg :: rest => noLeafKeyClash kg.2 ∧ noLeafKeyClashList rest
end

/-- Child of a branch under a given group key. -/
def childAt (node : GNode) (k : String) : Option GNode :=
  match node with
  | .leaf _ => none
  | .branch children => findKey children k

end NestedAccordionRenderer

/-- JS `parseInt(v, 10)`: stringify, skip leading whitespace, optional sign,
leading decimal digits; `none` models `NaN`. -/
def parseIntJS (v : Value) : Option Int :=
  let cs := (jsToString v).toList.dropWhile jsIsSpace
  let (sign, cs1) :=
    match cs with
    | '+' :: t => ((1 : Int), t)
    | '-' :: t => ((-1 : Int), t)
    | _ => ((1 : Int), cs)
  let ds := cs1.takeWhile Char.isDigit
  if ds.isEmpty then none else some (sign * (digitsToNat ds : Int))

/-- JS `Number(s)` on a string: trim, empty means `0`, otherwise the whole
string must be one numeric literal (hex literals are not modelled; no
verified property feeds them in). -/
def jsStringToNumber (s : String) : Option Q :=
  let t := ((s.toList.dropWhile jsIsSpace).reverse.dropWhile jsIsSpace).reverse
  if t.isEmpty then some 0
  else
    match parseFloatCore t with
    | some (q, []) => some q
    | _ => none

/-- JS `String.prototype.toUpperCase`, modelled on the ASCII range. -/
def jsToUpper (s : String) : String :=
  String.mk (s.toList.map Char.toUpper)

/-- Replace the first occurrence of `sub` in `cs` by nothing
(JS `s.replace('px', '')`). -/
def removeFirstSub (sub : List Char) : List Char → List Char
  | [] => []
  | c :: t => if sub.isPrefixOf (c :: t) then (c :: t).drop sub.length else c :: removeFirstSub sub t

/-- `Map.prototype.set`: overwrite in place or append. -/
def setEntry {α : Type} (m : List (String × α)) (k : String) (v : α) : List (String × α) :=
  if m.any (fun p => p.1 = k) then m.map (fun p => if p.1 = k then (k, v) else p)
  else m ++ [(k, v)]

namespace ColumnWidthUtils

/-- One column definition as far as the width resolver reads it.  `title` and
`width` may hold any primitive (the source probes them with truthiness and
`parseInt`); `type` is a string when present. -/
structure Column where
  field : String
  title : Value
  width : Value
  type : Option String

/-- One action definition: only the truthiness of `inline` matters here. -/
structure ActionDef where
  inline : Bool

/-- `LOCKED_FIELDS` / `LOCKED_TYPES` membership (`_isLocked`). -/
def isLocked (col : Column) : Bool :=
  col.field ∈ ["actions", "checkbox", "selected", "selector"] ||
    (match col.type with
     | some s => s ≠ "" && s ∈ ["actions", "checkbox", "selection", "settings"]
     | none => false)

/-- `FIELD_PRESETS`: business field-name presets, `{min, max}` in px. -/
def FIELD_PRESETS : List (String × (Q × Q)) :=
  [("CIDADE", (120, 180)), ("MUNICIPIO", (120, 180)), ("ESTADO", (60, 90)),
   ("UF", (60, 90)), ("ENDERECO", (200, 300)), ("LOGRADOURO", (200, 300)),
   ("RUA", (180, 280)), ("BAIRRO", (120, 180)), ("NOME", (140, 220)),
   ("NOME_FUNCIONARIO", (140, 220)), ("NOME_CARTAO", (140, 200)),
   ("RAZAO_SOCIAL", (160, 240)), ("EMAIL", (150, 240)), ("TELEFONE", (120, 150)),
   ("CELULAR", (120, 150)), ("CPF", (120, 140)), ("CNPJ", (150, 180)),
   ("CEP", (90, 110)), ("REFERENCIA", (100, 140)), ("CARTAO", (160, 220)),
   ("NRO_CARTAO", (160, 220)), ("DEPARTAMENTO", (120, 220)), ("STATUS", (100, 140)),
   ("MOSTRA_STATUS", (100, 140)), ("DESCRICAO_STATUS", (120, 160)),
   ("SITUACAO", (100, 140)), ("VALOR", (110, 160)), ("SALDO", (110, 160)),
   ("SALDO_ATUAL", (130, 180)), ("LIMITE", (110, 160)), ("MOSTRA_LIMITE", (130, 180)),
   ("TOTAL", (110, 160))]

/-- `TYPE_PRESETS`: data-type presets, `{min, max}` in px. -/
def TYPE_PRESETS : List (String × (Q × Q)) :=
  [("currency", (100, 140)), ("date", (100, 130)), ("datetime", (140, 180)),
   ("badge", (100, 140)), ("boolean_icon", (60, 90)), ("toggle", (70, 90)),
   ("phone", (120, 150)), ("state", (60, 80)), ("cep", (90, 110)),
   ("code", (80, 120)), ("text", (100, 250))]

/-- `_calculateMinHeaderWidth`: the header-safety floor,
`ceil(titleLength * 8.5 + 40 + 25 + 15)`; a falsy title yields 80. -/
def calculateMinHeaderWidth (title : Value) : Q :=
  if truthy title then
    Q.ofInt (Q.ceil (Q.ofNat (jsToString title).length * (⟨17, 2⟩ : Q) + 40 + 25 + 15))
  else 80

/-- `Math.round` (round half toward positive infinity). -/
def jsRound (q : Q) : Q := Q.ofInt (Q.floor (q + (⟨1, 2⟩ : Q)))

/-- Longest stringified value of a field over the sample rows
(`val !== null && val !== undefined` — falsy-but-present values count). -/
def sampleMaxChars (sample : List Rec) (field : String) : Nat :=
  sample.foldl
    (fun m row =>
      match getFieldOpt row field with
      | some v => if v = .null then m else max m (jsToString v).length
      | none => m) 0

/-- The preset chosen for a column on the sampling path:
`FIELD_PRESETS[fieldUpper] || TYPE_PRESETS[col.type?.toLowerCase()] ||
TYPE_PRESETS['text']`. -/
def presetFor (col : Column) : Q × Q :=
  match findKey FIELD_PRESETS (jsToUpper col.field) with
  | some p => p
  | none =>
    match col.type.bind (fun t => findKey TYPE_PRESETS (jsToLower t)) with
    | some p => p
    | none => (100, 250)

/-- Content-sampling path of the per-column loop: returns
`(clampedContentPx, roundedPx)` — the clamped content width (used for the
hero election) and the final rounded width. -/
def samplingParts (sample : List Rec) (col : Column) : Q × Q :=
  let preset := presetFor col
  let minHeaderRequired := if truthy col.title then calculateMinHeaderWidth col.title else 0
  let contentPx : Q := Q.ofNat (sampleMaxChars sample col.field) * 10 + 20 + 12
  let clampedContentPx := Q.qmax preset.1 (Q.qmin contentPx preset.2)
  let finalPx := Q.qmax clampedContentPx minHeaderRequired
  (clampedContentPx, jsRound finalPx)

/-- `!col.type || ['text','string'].includes(col.type)`. -/
def isTextType (col : Column) : Bool :=
  match col.type with
  | none => true
  | some s => s = "" || s = "text" || s = "string"

/-- Accumulator of the per-column loop: the width map (`none` = flexible),
the running total, and the hero-election bookkeeping. -/
structure WAcc where
  map : List (String × Option Value)
  total : Q
  longest : Option String
  maxCalc : Q

/-- One iteration of the `columns.forEach` loop of `computeAutoWidths`:
locked columns become flexible (+40 to the total); a truthy non-`'auto'`
configured width is raised to the header-safety floor when it parses below
it and the title is truthy, and otherwise honored as the raw configured
value; all other columns go through content sampling. -/
def processColumn (sample : List Rec) (acc : WAcc) (col : Column) : WAcc :=
  if isLocked col then
    { acc with map := setEntry acc.map col.field none, total := acc.total + 40 }
  else if truthy col.width ∧ col.width ≠ .str "auto" then
    let configPx := parseIntJS col.width
    let floorCase : Bool :=
      match configPx with
      | some p => truthy col.title && Q.blt (Q.ofInt p) (calculateMinHeaderWidth col.title)
      | none => false
    if floorCase then
      let mh := calculateMinHeaderWidth col.title
      { acc with map := setEntry acc.map col.field (some (.num mh)), total := acc.total + mh }
    else
      { acc with map := setEntry acc.map col.field (some col.width),
                 total := acc.total + Q.ofInt (configPx.getD 0) }
  else
    let parts := samplingParts sample col
    let acc2 := { acc with map := setEntry acc.map col.field (some (.num parts.2)),
                           total := acc.total + parts.2 }
    if isTextType col ∧ Q.blt acc.maxCalc parts.1 then
      { acc2 with longest := some col.field, maxCalc := parts.1 }
    else acc2

/-- The map value `processColumn` writes for one column (factored out for
the proofs: the written value depends only on the sample and the column,
never on the accumulator). -/
def widthValueOf (sample : List Rec) (col : Column) : Option Value :=
  if isLocked col then none
  else if truthy col.width ∧ col.width ≠ .str "auto" then
    match parseIntJS col.width with
    | some p =>
      if truthy col.title && Q.blt (Q.ofInt p) (calculateMinHeaderWidth col.title) then
        some (.num (calculateMinHeaderWidth col.title))
      else some col.width
    | none => some col.width
  else some (.num (samplingParts sample col).2)

/-- `actionsOverrideWidth` coercion: numbers pass, strings are
`parseInt(s.replace('px','')) || 120`, anything else is 120. -/
def forcedActionsWidth (v : Value) : Q :=
  match v with
  | .num q => q
  | .str s =>
    match parseIntJS (.str (String.mk (removeFirstSub "px".toList s.toList))) with
    | some n => if n = 0 then 120 else Q.ofInt n
    | none => 120
  | _ => 120

/-- The `actions` pseudo-column width: forced override, or
`60 + inlineCount*65 (+65 with a dropdown)` clamped into `[300, 600]`, or 0. -/
def actionsEntry (actionsDef : List ActionDef) (overrideW : Value) : Q :=
  if truthy overrideW then forcedActionsWidth overrideW
  else if actionsDef.length ≠ 0 then
    let inlineCount := (actionsDef.filter (fun a => a.inline)).length
    let hasDropdown := actionsDef.any (fun a => ¬ a.inline)
    let w : Q := Q.ofNat 60 + Q.ofNat inlineCount * 65 + (if hasDropdown then 65 else 0)
    Q.qmax 300 (Q.qmin w 600)
  else 0

/-- Numeric coercion applied by the relational `w > maxW` of the hero
fallback loop: a `null` entry coerces to 0, stored raw string widths go
through `Number(...)`, `none` models `NaN` (comparison false). -/
def jsRelNum : Option Value → Option Q
  | none => some 0
  | some (.num q) => some q
  | some (.str s) => jsStringToNumber s
  | some (.bool b) => some (if b then 1 else 0)
  | some .null => none

/-- Fallback hero election: when the per-column loop elected no text column,
scan the columns for the widest non-locked mapped entry. -/
def heroFallback (columns : List Column) (m : List (String × Option Value)) : Option String :=
  (columns.foldl
    (fun acc col =>
      if ¬ isLocked col then
        match findKey m col.field with
        | some entry =>
          match jsRelNum entry with
          | some q => if Q.blt acc.1 q then (q, some col.field) else acc
          | none => acc
        | none => acc
      else acc)
    ((0 : Q), (none : Option String))).2

/-- `computeAutoWidths` (cache and debug logging, both external to the
resolution logic, are not modelled; `window.innerWidth || 1920` is the
`viewportWidth` parameter).  Returns the width map: `none` = flexible. -/
def computeAutoWidths (columns : List Column) (data : List Rec)
    (actionsDef : List ActionDef) (actionsOverrideWidth : Value)
    (viewportWidth : Q) : List (String × Option Value) :=
  let aw := actionsEntry actionsDef actionsOverrideWidth
  let sample := data.take 100
  let init : WAcc := { map := [("actions", some (.num aw))], total := aw,
                       longest := none, maxCalc := 0 }
  let acc := columns.foldl (processColumn sample) init
  let availableSpace := viewportWidth - 60
  if Q.blt acc.total availableSpace then
    let elected :=
      match acc.longest with
      | some f => some f
      | none => heroFallback columns acc.map
    match elected with
    | some f =>
      if f ≠ "" ∧ (findKey acc.map f).isSome then setEntry acc.map f none else acc.map
    | none => acc.map
  else acc.map

end ColumnWidthUtils

namespace RendererUtils

/-- `runHook(plugins, hookName, args)`: invoke the hook on every plugin in
order.  A plugin is modelled as the hook it exposes under the invoked name:
`none` when it has no such function (the `typeof` guard skips it), otherwise
a state transformer that either returns or throws.  The source wraps each
invocation in `try`/`catch`, so a throwing hook leaves the external state
unchanged and the loop continues; `runHook` itself always returns. -/
def runHook {σ ε : Type} (plugins : List (Option (σ → Except ε σ))) (s : σ) : σ :=
  plugins.foldl
    (fun st p =>
      match p with
      | none => st
      | some f =>
        match f st with
        | .ok s2 => s2
        | .error _ => st) s

end RendererUtils

/-! ## Helper lemmas -/

/-- A character occurring in a list has a non-negative first index. -/
theorem firstIdx_nonneg_of_mem {cs : List Char} {c : Char} (h : c ∈ cs) :
    0 ≤ firstIdx cs c := by
  induction cs with
  | nil => cases h
  | cons a t ih =>
    by_cases hac : a = c
    · simp [firstIdx, hac]
    · have ht : c ∈ t := by
        cases h with
        | head => exact absurd rfl hac
        | tail _ h2 => exact h2
      have h0 := ih ht
      simp only [firstIdx, hac, if_false]
      split
      · omega
      · omega

/-- A character occurring in a list but not at its head has first index
strictly greater than zero. -/
theorem firstIdx_pos_of_mem_not_head {cs : List Char} {c : Char} (h : c ∈ cs)
    (hh : cs.head? ≠ some c) : 0 < firstIdx cs c := by
  cases cs with
  | nil => cases h
  | cons a t =>
    have hac : a ≠ c := by
      intro he; exact hh (by simp [he])
    have ht : c ∈ t := by
      cases h with
      | head => exact absurd rfl hac
      | tail _ h2 => exact h2
    have h0 := firstIdx_nonneg_of_mem ht
    simp only [firstIdx, hac, if_false]
    split
    · omega
    · omega

/-- `runHook` processes a concatenation left to right. -/
theorem runHook_append {σ ε : Type} (l1 l2 : List (Option (σ → Except ε σ))) (s : σ) :
    RendererUtils.runHook (l1 ++ l2) s =
      RendererUtils.runHook l2 (RendererUtils.runHook l1 s) := by
  simp [RendererUtils.runHook, List.foldl_append]

/-! ## Claim theorems -/

/-- C1 (code bug): `setSort(field, direction, customCompare)` stores the
caller-supplied comparator in `sortConfig`, and the doc comment on `setSort`
promises it replaces the default comparison, but `applyFilters` destructures
only `field` and `direction` and always sorts with the built-in currency
heuristic.  At the data below the heuristic parses `R$ 10,00`/`R$ 9,00` as
1000/900 and orders them numerically, while the stored custom (plain string)
comparator orders them the other way — the store's output matches the
heuristic, not the custom comparator. -/
theorem setSort_ignores_customCompare :
    (DataController.setSort (some "V") (some "asc")
        (some (fun a b =>
          if ltChars (jsToString (getField a "V")).toList (jsToString (getField b "V")).toList
            then -1
          else if ltChars (jsToString (getField b "V")).toList (jsToString (getField a "V")).toList
            then 1
          else 0))
        (DataController.setData [[("V", Value.str "R$ 10,00")], [("V", Value.str "R$ 9,00")]]
          (DataController.mkStore "ID" [] 10))).filteredData =
      [[("V", Value.str "R$ 9,00")], [("V", Value.str "R$ 10,00")]] ∧
    sortJS
        (fun a b =>
          (if ltChars (jsToString (getField a "V")).toList (jsToString (getField b "V")).toList
            then (-1 : Int)
          else if ltChars (jsToString (getField b "V")).toList (jsToString (getField a "V")).toList
            then 1
          else 0) ≤ 0)
        [[("V", Value.str "R$ 10,00")], [("V", Value.str "R$ 9,00")]] =
      [[("V", Value.str "R$ 10,00")], [("V", Value.str "R$ 9,00")]] := by
  constructor
  · decide
  · decide

/-- C2 (counterexample): the claim says every string containing a minus sign
— including a leading minus such as `"-5"` — is rejected by the speculative
numeric parse.  The source rejects only when `indexOf('-') > 0`, so `"-5"`
parses to the number -5; and on the dataset `["-1,5", "-11"]` the ascending
sort is numeric (`-11` first), not the case-folded string order (`"-1,5"`
first) the claim would imply. -/
theorem parseMoney_accepts_leading_minus :
    DataController.parseMoney (.str "-5") = some (Q.ofInt (-5)) ∧
    (DataController.setSort (some "A") (some "asc") none
        (DataController.setData [[("A", Value.str "-1,5")], [("A", Value.str "-11")]]
          (DataController.mkStore "ID" [] 10))).filteredData =
      [[("A", Value.str "-11")], [("A", Value.str "-1,5")]] := by
  constructor
  · decide
  · decide

/-- C2 (amended): a string value is rejected as non-numeric by the
speculative parse exactly when it contains a minus sign strictly after its
first character; a value whose only minus is leading bypasses the rejection
and may compare numerically. -/
theorem parseMoney_rejects_inner_minus (s : String)
    (hmem : '-' ∈ s.toList) (hhead : s.toList.head? ≠ some '-') :
    DataController.parseMoney (.str s) = none := by
  have hpos := firstIdx_pos_of_mem_not_head hmem hhead
  simp only [DataController.parseMoney]
  rw [if_pos (by omega)]

/-- Witness for `parseMoney_rejects_inner_minus` at `"1-5"`. -/
theorem parseMoney_rejects_inner_minus_witness :
    DataController.parseMoney (.str "1-5") = none :=
  parseMoney_rejects_inner_minus "1-5" (by decide) (by decide)

/-- C3 (counterexample): the claim says `goToPage(n)` clamps into
`[1, totalPages]` — in particular `goToPage(0)` should land on page 1 and
`goToPage(totalPages + 1)` on the last page.  On a 25-record store with page
size 10 (3 pages) sitting on page 2, both out-of-range calls leave the
cursor on page 2: the source returns early instead of clamping. -/
theorem goToPage_does_not_clamp :
    DataController.getTotalPages
        (DataController.goToPage 2
          (DataController.setData
            ((List.range 25).map (fun i => [("ID", Value.num (Q.ofNat i))]))
            (DataController.mkStore "ID" [] 10))) = 3 ∧
    (DataController.goToPage 0
        (DataController.goToPage 2
          (DataController.setData
            ((List.range 25).map (fun i => [("ID", Value.num (Q.ofNat i))]))
            (DataController.mkStore "ID" [] 10)))).currentPage = 2 ∧
    (DataController.goToPage 4
        (DataController.goToPage 2
          (DataController.setData
            ((List.range 25).map (fun i => [("ID", Value.num (Q.ofNat i))]))
            (DataController.mkStore "ID" [] 10)))).currentPage = 2 := by
  refine ⟨by decide, by decide, by decide⟩

/-- C3 (amended): `goToPage(n)` is a silent no-op (no error, no clamping)
whenever `n` is outside `[1, totalPages]`, and moves the cursor to exactly
`n` when `n` is inside the range. -/
theorem goToPage_in_range_or_noop (st : DataController.Store) (n : Int) :
    ((n < 1 ∨ n > (DataController.getTotalPages st : Int)) →
      DataController.goToPage n st = st) ∧
    (1 ≤ n → n ≤ (DataController.getTotalPages st : Int) →
      DataController.goToPage n st = { st with currentPage := n.toNat }) := by
  constructor
  · intro h
    unfold DataController.goToPage
    rw [if_pos h]
  · intro h1 h2
    unfold DataController.goToPage
    rw [if_neg (by omega)]

/-- Witness for `goToPage_in_range_or_noop` on a fresh store (one page). -/
theorem goToPage_in_range_or_noop_witness :
    DataController.goToPage 1 (DataController.mkStore "ID" [] 10) =
      { DataController.mkStore "ID" [] 10 with currentPage := 1 } ∧
    DataController.goToPage 0 (DataController.mkStore "ID" [] 10) =
      DataController.mkStore "ID" [] 10 :=
  ⟨(goToPage_in_range_or_noop (DataController.mkStore "ID" [] 10) 1).2 (by decide) (by decide),
   (goToPage_in_range_or_noop (DataController.mkStore "ID" [] 10) 0).1 (Or.inl (by decide))⟩

/-- C4 (counterexample): the claim says every operation that changes
`totalPages` leaves `1 ≤ currentPage ≤ totalPages` — in particular `setData`
with a smaller dataset.  Taking a 25-record store to page 3 and then
replacing the data with a single record leaves `currentPage = 3` with
`totalPages = 1`: `setData`'s recomputation never touches the cursor. -/
theorem setData_leaves_cursor_beyond_last_page :
    (DataController.setData [[("ID", Value.num (Q.ofNat 0))]]
        (DataController.goToPage 3
          (DataController.setData
            ((List.range 25).map (fun i => [("ID", Value.num (Q.ofNat i))]))
            (DataController.mkStore "ID" [] 10)))).currentPage = 3 ∧
    DataController.getTotalPages
        (DataController.setData [[("ID", Value.num (Q.ofNat 0))]]
          (DataController.goToPage 3
            (DataController.setData
              ((List.range 25).map (fun i => [("ID", Value.num (Q.ofNat i))]))
              (DataController.mkStore "ID" [] 10)))) = 1 := by
  refine ⟨by decide, by decide⟩

/-- C4 (amended): of the operations that change `totalPages`, only
`setSearchTerm` (on an actually-changed term) and `setPageSize` re-establish
the cursor invariant, both by resetting to page 1; `setData` leaves
`currentPage` untouched, so shrinking the dataset can strand the cursor
beyond the last page. -/
theorem cursor_reset_by_search_and_pageSize (st : DataController.Store)
    (t : String) (sz : Nat) (d : List Rec) :
    (st.searchTerm ≠ some t → (DataController.setSearchTerm t st).currentPage = 1) ∧
    (DataController.setPageSize sz st).currentPage = 1 ∧
    (DataController.setData d st).currentPage = st.currentPage := by
  refine ⟨?_, rfl, rfl⟩
  intro h
  unfold DataController.setSearchTerm
  rw [if_neg h]
  rfl

/-- Witness for `cursor_reset_by_search_and_pageSize` on a fresh store. -/
theorem cursor_reset_by_search_and_pageSize_witness :
    (DataController.setSearchTerm "x" (DataController.mkStore "ID" [] 10)).currentPage = 1 ∧
    (DataController.setPageSize 5 (DataController.mkStore "ID" [] 10)).currentPage = 1 :=
  ⟨(cursor_reset_by_search_and_pageSize (DataController.mkStore "ID" [] 10) "x" 5 []).1
      (by simp [DataController.mkStore]),
   (cursor_reset_by_search_and_pageSize (DataController.mkStore "ID" [] 10) "x" 5 []).2.1⟩

/-- C9: a throwing hook is caught per-invocation: with any plugin lists
before and after it, the run over the whole list equals the run over the
prefix followed by the run over the suffix — the throwing plugin's effect is
skipped, every later plugin still executes on the state the prefix produced,
and `runHook` (whose catch makes it total) returns normally. -/
theorem runHook_isolates_throwing_plugin {σ ε : Type}
    (ps1 ps2 : List (Option (σ → Except ε σ))) (f : σ → Except ε σ) (s : σ)
    (e : ε) (h : f (RendererUtils.runHook ps1 s) = .error e) :
    RendererUtils.runHook (ps1 ++ some f :: ps2) s =
      RendererUtils.runHook ps2 (RendererUtils.runHook ps1 s) := by
  rw [runHook_append]
  have hstep : RendererUtils.runHook (some f :: ps2) (RendererUtils.runHook ps1 s) =
      RendererUtils.runHook ps2
        (match f (RendererUtils.runHook ps1 s) with
         | .ok s2 => s2
         | .error _ => RendererUtils.runHook ps1 s) := rfl
  rw [hstep, h]

/-- Witness for `runHook_isolates_throwing_plugin`: a logging plugin, a
throwing plugin, then another logging plugin — the log records both loggers. -/
theorem runHook_isolates_throwing_plugin_witness :
    RendererUtils.runHook
        ([some (fun l => Except.ok (l ++ [1])),
          some (fun _ => Except.error "boom"),
          some (fun l => Except.ok (l ++ [2]))] :
          List (Option (List Nat → Except String (List Nat)))) [] =
      RendererUtils.runHook
        ([some (fun l => Except.ok (l ++ [2]))] :
          List (Option (List Nat → Except String (List Nat))))
        (RendererUtils.runHook
          ([some (fun l => Except.ok (l ++ [1]))] :
            List (Option (List Nat → Except String (List Nat)))) []) :=
  runHook_isolates_throwing_plugin
    [some (fun l => Except.ok (l ++ [1]))]
    [some (fun l => Except.ok (l ++ [2]))]
    (fun _ => Except.error "boom") [] "boom" rfl

/-- C10 (implicit): the search predicate tests `val && String(val)...`, so a
field whose raw value is falsy (numeric 0, `false`, `''`, `null`) never
contributes a match, whatever the term; concretely, searching `"0"` over a
record whose only field holds numeric `0` filters the record out. -/
theorem falsy_field_never_matches (visible : Option (String → Bool))
    (term f : String) (v : Value) (h : truthy v = false) :
    DataController.fieldHit visible term f v = false ∧
    (DataController.setSearchTerm "0"
        (DataController.setData [[("A", Value.num (Q.ofNat 0))]]
          (DataController.mkStore "ID" ["A"] 10))).filteredData = [] := by
  refine ⟨?_, by decide⟩
  simp [DataController.fieldHit, h]

/-- Witness for `falsy_field_never_matches` at the numeric value 0. -/
theorem falsy_field_never_matches_witness :
    DataController.fieldHit none "0" "A" (Value.num (Q.ofNat 0)) = false :=
  (falsy_field_never_matches none "0" "A" (Value.num (Q.ofNat 0)) (by decide)).1

/-- `(a + b - 1) / b` in `ℕ` is the ceiling of the rational `a / b`. -/
theorem add_pred_div_eq_ceil (a b : Nat) (hb : 0 < b) :
    (a + b - 1) / b = ⌈(a : ℚ) / (b : ℚ)⌉₊ := by
  have hbq : (0 : ℚ) < (b : ℚ) := by exact_mod_cast hb
  set q := (a + b - 1) / b with hq
  have e := Nat.div_add_mod (a + b - 1) b
  have hr : (a + b - 1) % b < b := Nat.mod_lt _ hb
  rw [← hq] at e
  set r := (a + b - 1) % b
  set p := b * q with hp
  have hA : a ≤ q * b := by rw [Nat.mul_comm]; omega
  apply le_antisymm
  · rcases Nat.eq_zero_or_pos q with h0 | hpos
    · simp [h0]
    · have hbp : b ≤ p := by
        calc b = b * 1 := (Nat.mul_one b).symm
        _ ≤ b * q := Nat.mul_le_mul_left b hpos
      have hqb : (q - 1) * b = p - b := by
        rw [Nat.sub_mul, Nat.one_mul, Nat.mul_comm]
      have hlt : (q - 1) * b < a := by omega
      have h1 : ((q - 1 : ℕ) : ℚ) < (a : ℚ) / (b : ℚ) := by
        rw [lt_div_iff₀ hbq]
        exact_mod_cast hlt
      have h2 := Nat.lt_ceil.mpr h1
      omega
  · apply Nat.ceil_le.mpr
    rw [div_le_iff₀ hbq]
    exact_mod_cast hA

/-- C6: `getTotalPages` is `ceil(filteredCount / pageSize)` floored at 1 for
every store with a positive page size; and the empty dataset with pagination
enabled yields `totalPages = 1`, `currentPage = 1`, `pageData = []` in the
snapshot. -/
theorem totalPages_ceil_and_empty_snapshot :
    (∀ st : DataController.Store, 0 < st.pageSize →
      DataController.getTotalPages st =
        max 1 ⌈(st.filteredData.length : ℚ) / (st.pageSize : ℚ)⌉₊) ∧
    (DataController.getDataSnapshot
        (DataController.setData [] (DataController.mkStore "ID" [] 10))).totalPages = 1 ∧
    (DataController.getDataSnapshot
        (DataController.setData [] (DataController.mkStore "ID" [] 10))).currentPage = 1 ∧
    (DataController.getDataSnapshot
        (DataController.setData [] (DataController.mkStore "ID" [] 10))).pageData = [] := by
  refine ⟨?_, by decide, by decide, by decide⟩
  intro st hps
  show (if (st.filteredData.length + st.pageSize - 1) / st.pageSize = 0 then 1
        else (st.filteredData.length + st.pageSize - 1) / st.pageSize) =
    max 1 ⌈(st.filteredData.length : ℚ) / (st.pageSize : ℚ)⌉₊
  rw [← add_pred_div_eq_ceil _ _ hps]
  rcases Nat.eq_zero_or_pos ((st.filteredData.length + st.pageSize - 1) / st.pageSize) with h0 | hpos
  · simp [h0]
  · rw [if_neg (by omega)]
    omega

/-- Witness for `totalPages_ceil_and_empty_snapshot` at a 25-record store
with page size 10. -/
theorem totalPages_ceil_and_empty_snapshot_witness :
    DataController.getTotalPages
        (DataController.setData
          ((List.range 25).map (fun i => [("ID", Value.num (Q.ofNat i))]))
          (DataController.mkStore "ID" [] 10)) =
      max 1 ⌈((25 : ℕ) : ℚ) / ((10 : ℕ) : ℚ)⌉₊ := by
  have h := (totalPages_ceil_and_empty_snapshot).1
    (DataController.setData
      ((List.range 25).map (fun i => [("ID", Value.num (Q.ofNat i))]))
      (DataController.mkStore "ID" [] 10)) (by decide)
  rw [show (DataController.setData
      ((List.range 25).map (fun i => [("ID", Value.num (Q.ofNat i))]))
      (DataController.mkStore "ID" [] 10)).filteredData.length = 25 from by decide,
    show (DataController.setData
      ((List.range 25).map (fun i => [("ID", Value.num (Q.ofNat i))]))
      (DataController.mkStore "ID" [] 10)).pageSize = 10 from by decide] at h
  exact h

/-- Membership after `Set.add`. -/
theorem mem_setAdd (l : List String) (a k : String) :
    k ∈ DataController.setAdd l a ↔ k ∈ l ∨ k = a := by
  unfold DataController.setAdd
  split
  · constructor
    · exact Or.inl
    · rintro (h | rfl)
      · exact h
      · assumption
  · simp

/-- Membership after `Set.delete`. -/
theorem mem_setDel (l : List String) (a k : String) :
    k ∈ DataController.setDel l a ↔ k ∈ l ∧ k ≠ a := by
  simp [DataController.setDel]

/-- Membership after adding a whole id list. -/
theorem mem_foldl_setAdd (ids : List String) (init : List String) (k : String) :
    k ∈ ids.foldl DataController.setAdd init ↔ k ∈ init ∨ k ∈ ids := by
  induction ids generalizing init with
  | nil => simp
  | cons a t ih =>
    simp only [List.foldl_cons, ih, mem_setAdd, List.mem_cons]
    constructor
    · rintro ((h | rfl) | h) <;> tauto
    · rintro (h | rfl | h) <;> tauto

/-- Membership after deleting a whole id list. -/
theorem mem_foldl_setDel (ids : List String) (init : List String) (k : String) :
    k ∈ ids.foldl DataController.setDel init ↔ k ∈ init ∧ k ∉ ids := by
  induction ids generalizing init with
  | nil => simp
  | cons a t ih =>
    simp only [List.foldl_cons, ih, mem_setDel, List.mem_cons]
    constructor
    · rintro ⟨⟨h1, h2⟩, h3⟩
      exact ⟨h1, by tauto⟩
    · rintro ⟨h1, h2⟩
      refine ⟨⟨h1, ?_⟩, ?_⟩ <;> tauto

/-- C7: (a) `isAllSelected` is true iff the filtered view is non-empty and
every view record's stringified key is selected; (b) `toggleSelectAll`
leaves membership unchanged for every key outside the current filtered view;
(c) on view keys, `toggleSelectAll(true)` selects and `toggleSelectAll(false)`
deselects; (d) a search-term change never touches the selection set. -/
theorem selection_invariants (st : DataController.Store) :
    (DataController.isAllSelected st = true ↔
      (st.filteredData ≠ [] ∧
        ∀ item ∈ st.filteredData,
          DataController.keyOfRec st.keyField item ∈ st.selectedIds)) ∧
    (∀ (b : Bool) (k : String),
      k ∉ st.filteredData.map (DataController.keyOfRec st.keyField) →
      (k ∈ (DataController.toggleSelectAll b st).selectedIds ↔ k ∈ st.selectedIds)) ∧
    (∀ k : String, k ∈ st.filteredData.map (DataController.keyOfRec st.keyField) →
      k ∈ (DataController.toggleSelectAll true st).selectedIds ∧
      k ∉ (DataController.toggleSelectAll false st).selectedIds) ∧
    (∀ t : String,
      (DataController.setSearchTerm t st).selectedIds = st.selectedIds) := by
  refine ⟨?_, ?_, ?_, ?_⟩
  · unfold DataController.isAllSelected
    split
    · rename_i hlen
      have : st.filteredData = [] := List.length_eq_zero.mp hlen
      simp [this]
    · rename_i hlen
      have : st.filteredData ≠ [] := by
        intro he
        exact hlen (by simp [he])
      simp [List.all_eq_true, this]
  · intro b k hk
    cases b
    · show k ∈ List.foldl DataController.setDel st.selectedIds _ ↔ _
      rw [mem_foldl_setDel]
      tauto
    · show k ∈ List.foldl DataController.setAdd st.selectedIds _ ↔ _
      rw [mem_foldl_setAdd]
      tauto
  · intro k hk
    constructor
    · show k ∈ List.foldl DataController.setAdd st.selectedIds _
      rw [mem_foldl_setAdd]
      exact Or.inr hk
    · show k ∉ List.foldl DataController.setDel st.selectedIds _
      rw [mem_foldl_setDel]
      tauto
  · intro t
    unfold DataController.setSearchTerm
    split
    · rfl
    · rfl

/-- Witness for `selection_invariants`: on a two-record store, select-all
marks both keys selected and `isAllSelected` becomes true; deselect-all
removes them. -/
theorem selection_invariants_witness :
    ("1" ∈ (DataController.toggleSelectAll true
        (DataController.setData
          [[("ID", Value.num (Q.ofNat 1))], [("ID", Value.num (Q.ofNat 2))]]
          (DataController.mkStore "ID" [] 10))).selectedIds) ∧
    ("1" ∉ (DataController.toggleSelectAll false
        (DataController.setData
          [[("ID", Value.num (Q.ofNat 1))], [("ID", Value.num (Q.ofNat 2))]]
          (DataController.mkStore "ID" [] 10))).selectedIds) := by
  have h := (selection_invariants
    (DataController.setData
      [[("ID", Value.num (Q.ofNat 1))], [("ID", Value.num (Q.ofNat 2))]]
      (DataController.mkStore "ID" [] 10))).2.2.1 "1" (by decide)
  exact ⟨h.1, h.2⟩

/-- Membership after `insertKey`. -/
theorem mem_insertKey (ks : List String) (a k : String) :
    k ∈ NestedAccordionRenderer.insertKey ks a ↔ k ∈ ks ∨ k = a := by
  unfold NestedAccordionRenderer.insertKey
  split
  · constructor
    · exact Or.inl
    · rintro (h | rfl)
      · exact h
      · assumption
  · simp

/-- `insertKey` preserves distinctness. -/
theorem nodup_insertKey (ks : List String) (a : String) (h : ks.Nodup) :
    (NestedAccordionRenderer.insertKey ks a).Nodup := by
  unfold NestedAccordionRenderer.insertKey
  split
  · exact h
  · rename_i hmem
    apply List.Nodup.append h (List.nodup_singleton a)
    intro x hx hx2
    simp only [List.mem_singleton] at hx2
    subst hx2
    exact hmem hx

/-- Folding `insertKey` over a list preserves distinctness of the key list. -/
theorem nodup_foldl_insertKey {α : Type} (g : α → String) (l : List α)
    (ks : List String) (h : ks.Nodup) :
    (l.foldl (fun acc x => NestedAccordionRenderer.insertKey acc (g x)) ks).Nodup := by
  induction l generalizing ks with
  | nil => exact h
  | cons x t ih => exact ih _ (nodup_insertKey _ _ h)

/-- Where keys in a fold of `insertKey` come from. -/
theorem mem_foldl_insertKey {α : Type} (g : α → String) (l : List α)
    (ks : List String) (k : String) :
    k ∈ l.foldl (fun acc x => NestedAccordionRenderer.insertKey acc (g x)) ks ↔
      k ∈ ks ∨ ∃ x ∈ l, g x = k := by
  induction l generalizing ks with
  | nil => simp
  | cons x t ih =>
    simp only [List.foldl_cons, ih, mem_insertKey, List.mem_cons]
    constructor
    · rintro ((h | rfl) | ⟨y, hy, rfl⟩)
      · exact Or.inl h
      · exact Or.inr ⟨x, Or.inl rfl, rfl⟩
      · exact Or.inr ⟨y, Or.inr hy, rfl⟩
    · rintro (h | ⟨y, hy | hy, rfl⟩)
      · exact Or.inl (Or.inl h)
      · subst hy; exact Or.inl (Or.inr rfl)
      · exact Or.inr ⟨y, hy, rfl⟩

/-- The distinct first-seen group keys: distinct. -/
theorem firstKeys_nodup (data : List Rec) (f : String) :
    (NestedAccordionRenderer.firstKeys data f).Nodup :=
  nodup_foldl_insertKey _ data [] List.nodup_nil

/-- Characterization of the first-seen key list. -/
theorem mem_firstKeys_iff (data : List Rec) (f : String) (k : String) :
    k ∈ NestedAccordionRenderer.firstKeys data f ↔
      ∃ x ∈ data, NestedAccordionRenderer.groupKey x f = k := by
  unfold NestedAccordionRenderer.firstKeys
  rw [mem_foldl_insertKey]
  simp

/-- `findKey` misses a key carried by no entry. -/
theorem findKey_eq_none {α : Type} (l : List (String × α)) (k : String)
    (h : ∀ p ∈ l, p.1 ≠ k) : findKey l k = none := by
  induction l with
  | nil => rfl
  | cons p t ih =>
    unfold findKey
    rw [if_neg (h p (List.mem_cons_self p t))]
    exact ih (fun p2 hp2 => h p2 (List.mem_cons_of_mem p hp2))

/-- `findKey` on a key-indexed map of a distinct key list returns the image
of the first occurrence. -/
theorem findKey_map_keys {α : Type} (ks : List String) (g : String → α)
    (k : String) (h : k ∈ ks) :
    findKey (ks.map (fun k2 => (k2, g k2))) k = some (g k) := by
  induction ks with
  | nil => cases h
  | cons k2 t ih =>
    unfold findKey
    by_cases he : k2 = k
    · subst he
      simp
    · simp only [List.map_cons]
      rw [if_neg he]
      exact ih (by
        cases h with
        | head => exact absurd rfl he
        | tail _ h2 => exact h2)

/-- The concatenation of the per-key filters of a partition is a permutation
of the data, provided the key list is distinct and covers every element. -/
theorem flatten_filter_perm {α : Type} [DecidableEq α] (g : α → String) :
    ∀ (ks : List String) (data : List α), ks.Nodup → (∀ x ∈ data, g x ∈ ks) →
    List.Perm (ks.map (fun k => data.filter (fun x => g x = k))).flatten data := by
  intro ks
  induction ks with
  | nil =>
    intro data _ hall
    cases data with
    | nil => simp
    | cons x t => exact absurd (hall x (List.mem_cons_self x t)) (List.not_mem_nil _)
  | cons k kt ih =>
    intro data hnd hall
    have hknotin : k ∉ kt := (List.nodup_cons.mp hnd).1
    have hndt : kt.Nodup := (List.nodup_cons.mp hnd).2
    simp only [List.map_cons, List.flatten_cons]
    have hmapeq : kt.map (fun k2 => data.filter (fun x => g x = k2)) =
        kt.map (fun k2 => (data.filter (fun x => ¬ (g x = k))).filter (fun x => g x = k2)) := by
      apply List.map_congr_left
      intro k2 hk2
      rw [List.filter_filter]
      apply List.filter_congr
      intro x _
      by_cases hgx : g x = k2
      · have hk2k : ¬ k2 = k := fun he => hknotin (he ▸ hk2)
        simp [hgx, hk2k]
      · simp [hgx]
    rw [hmapeq]
    have hsub : ∀ x ∈ data.filter (fun x => ¬ (g x = k)), g x ∈ kt := by
      intro x hx
      have hx2 := List.mem_filter.mp hx
      have := hall x hx2.1
      cases List.mem_cons.mp this with
      | inl he => exact absurd he (by simpa using hx2.2)
      | inr ht => exact ht
    have hperm2 := ih (data.filter (fun x => ¬ (g x = k))) hndt hsub
    have step1 : List.Perm
        (data.filter (fun x => g x = k) ++
          (kt.map (fun k2 =>
            (data.filter (fun x => ¬ (g x = k))).filter (fun x => g x = k2))).flatten)
        (data.filter (fun x => g x = k) ++ data.filter (fun x => ¬ (g x = k))) :=
      hperm2.append_left _
    have step2 : List.Perm
        (data.filter (fun x => g x = k) ++ data.filter (fun x => ¬ (g x = k))) data := by
      have hp := List.filter_append_perm (fun x => decide (g x = k)) data
      simpa [decide_not] using hp
    exact step1.trans step2

/-- `groupByLevels` at a non-empty level list, with the partition spelled as
a key-indexed map over the first-seen keys. -/
theorem groupByLevels_cons (data : List Rec) (f : String) (rest : List String) :
    NestedAccordionRenderer.groupByLevels data (f :: rest) =
      .branch ((NestedAccordionRenderer.firstKeys data f).map
        (fun k => (k, NestedAccordionRenderer.groupByLevels
          (data.filter (fun it => NestedAccordionRenderer.groupKey it f = k)) rest))) := by
  show NestedAccordionRenderer.GNode.branch
      ((NestedAccordionRenderer.partitionBy data f).map
        (fun kg => (kg.1, NestedAccordionRenderer.groupByLevels kg.2 rest))) = _
  unfold NestedAccordionRenderer.partitionBy
  rw [List.map_map]
  rfl

/-- Flattening and counting a key-indexed child list, given the per-key
flattening/counting facts. -/
theorem fold_children_perm_count (T : String → NestedAccordionRenderer.GNode)
    (P : String → List Rec) :
    ∀ ks : List String,
    (∀ k ∈ ks, List.Perm (NestedAccordionRenderer.getItems (T k)) (P k) ∧
      NestedAccordionRenderer.countItems (T k) = (P k).length) →
    List.Perm (NestedAccordionRenderer.getItemsList (ks.map (fun k => (k, T k))))
        ((ks.map P).flatten) ∧
    NestedAccordionRenderer.countItemsList (ks.map (fun k => (k, T k))) =
        ((ks.map P).flatten).length := by
  intro ks
  induction ks with
  | nil =>
    intro _
    exact ⟨List.Perm.refl _, rfl⟩
  | cons k kt ih =>
    intro hk
    have hhead := hk k (List.mem_cons_self k kt)
    have htail := ih (fun k2 hk2 => hk k2 (List.mem_cons_of_mem k hk2))
    constructor
    · show List.Perm (NestedAccordionRenderer.getItems (T k) ++
        NestedAccordionRenderer.getItemsList (kt.map (fun k2 => (k2, T k2)))) _
      rw [List.map_cons, List.flatten_cons]
      exact hhead.1.append htail.1
    · show NestedAccordionRenderer.countItems (T k) +
        NestedAccordionRenderer.countItemsList (kt.map (fun k2 => (k2, T k2))) = _
      rw [List.map_cons, List.flatten_cons, List.length_append, hhead.2, htail.2]

/-- C5 (amended): for every record list and grouping-field list in which no
record's group key is the literal string `"_isLeaf"` (the untyped leaf
marker), flattening the grouping tree returns exactly the input records (as
a permutation: each record lands in exactly one leaf), `countItems` equals
the record count, and every record whose value at the first grouping field
is missing or falsy lands under the `"Outros"` bucket. -/
theorem grouping_complete (fields : List String) :
    ∀ records : List Rec,
    (∀ item ∈ records, ∀ f ∈ fields,
      NestedAccordionRenderer.groupKey item f ≠ "_isLeaf") →
    List.Perm (NestedAccordionRenderer.getItems
        (NestedAccordionRenderer.groupByLevels records fields)) records ∧
    NestedAccordionRenderer.countItems
        (NestedAccordionRenderer.groupByLevels records fields) = records.length ∧
    (∀ f rest, fields = f :: rest → ∀ item ∈ records,
      truthy (NestedAccordionRenderer.getNestedValue item f) = false →
      ∃ g, NestedAccordionRenderer.childAt
          (NestedAccordionRenderer.groupByLevels records fields) "Outros" = some g ∧
        item ∈ NestedAccordionRenderer.getItems g) := by
  induction fields with
  | nil =>
    intro records _
    refine ⟨List.Perm.refl _, rfl, ?_⟩
    intro f rest h
    cases h
  | cons f rest ih =>
    intro records hcl
    rw [groupByLevels_cons]
    have hK2 : ∀ x ∈ records,
        NestedAccordionRenderer.groupKey x f ∈ NestedAccordionRenderer.firstKeys records f :=
      fun x hx => (mem_firstKeys_iff records f _).mpr ⟨x, hx, rfl⟩
    have hKleaf : "_isLeaf" ∉ NestedAccordionRenderer.firstKeys records f := by
      rw [mem_firstKeys_iff]
      rintro ⟨x, hx, he⟩
      exact hcl x hx f (List.mem_cons_self f rest) he
    have hnone : findKey ((NestedAccordionRenderer.firstKeys records f).map
        (fun k => (k, NestedAccordionRenderer.groupByLevels
          (records.filter (fun it => NestedAccordionRenderer.groupKey it f = k)) rest)))
        "_isLeaf" = none := by
      apply findKey_eq_none
      rintro p hp
      obtain ⟨k, hk, rfl⟩ := List.mem_map.mp hp
      intro he
      exact hKleaf (he ▸ hk)
    have hTk : ∀ k ∈ NestedAccordionRenderer.firstKeys records f,
        List.Perm (NestedAccordionRenderer.getItems (NestedAccordionRenderer.groupByLevels
          (records.filter (fun it => NestedAccordionRenderer.groupKey it f = k)) rest))
          (records.filter (fun it => NestedAccordionRenderer.groupKey it f = k)) ∧
        NestedAccordionRenderer.countItems (NestedAccordionRenderer.groupByLevels
          (records.filter (fun it => NestedAccordionRenderer.groupKey it f = k)) rest) =
          (records.filter (fun it => NestedAccordionRenderer.groupKey it f = k)).length := by
      intro k _
      have hsubcl : ∀ item ∈ records.filter
          (fun it => NestedAccordionRenderer.groupKey it f = k),
          ∀ f2 ∈ rest, NestedAccordionRenderer.groupKey item f2 ≠ "_isLeaf" :=
        fun item hitem f2 hf2 =>
          hcl item (List.mem_filter.mp hitem).1 f2 (List.mem_cons_of_mem f hf2)
      have h3 := ih (records.filter
        (fun it => NestedAccordionRenderer.groupKey it f = k)) hsubcl
      exact ⟨h3.1, h3.2.1⟩
    have hfold := fold_children_perm_count
      (fun k => NestedAccordionRenderer.groupByLevels
        (records.filter (fun it => NestedAccordionRenderer.groupKey it f = k)) rest)
      (fun k => records.filter (fun it => NestedAccordionRenderer.groupKey it f = k))
      (NestedAccordionRenderer.firstKeys records f) hTk
    have hjoin := flatten_filter_perm (fun it => NestedAccordionRenderer.groupKey it f)
      (NestedAccordionRenderer.firstKeys records f) records
      (firstKeys_nodup records f) hK2
    have hGI : NestedAccordionRenderer.getItems
        (.branch ((NestedAccordionRenderer.firstKeys records f).map
          (fun k => (k, NestedAccordionRenderer.groupByLevels
            (records.filter (fun it => NestedAccordionRenderer.groupKey it f = k)) rest)))) =
        NestedAccordionRenderer.getItemsList
          ((NestedAccordionRenderer.firstKeys records f).map
            (fun k => (k, NestedAccordionRenderer.groupByLevels
              (records.filter (fun it => NestedAccordionRenderer.groupKey it f = k)) rest))) := by
      rw [NestedAccordionRenderer.getItems, hnone]
      rfl
    have hCI : NestedAccordionRenderer.countItems
        (.branch ((NestedAccordionRenderer.firstKeys records f).map
          (fun k => (k, NestedAccordionRenderer.groupByLevels
            (records.filter (fun it => NestedAccordionRenderer.groupKey it f = k)) rest)))) =
        NestedAccordionRenderer.countItemsList
          ((NestedAccordionRenderer.firstKeys records f).map
            (fun k => (k, NestedAccordionRenderer.groupByLevels
              (records.filter (fun it => NestedAccordionRenderer.groupKey it f = k)) rest))) := by
      rw [NestedAccordionRenderer.countItems, hnone]
      rfl
    refine ⟨?_, ?_, ?_⟩
    · rw [hGI]
      exact hfold.1.trans hjoin
    · rw [hCI, hfold.2, hjoin.length_eq]
    · rintro f0 rest0 heq item hitem hfalsy
      have hf : f0 = f := by
        injection heq with h1 _
        exact h1.symm
      have hrest : rest0 = rest := by
        injection heq with _ h2
        exact h2.symm
      subst hf
      subst hrest
      have hkey : NestedAccordionRenderer.groupKey item f0 = "Outros" := by
        simp [NestedAccordionRenderer.groupKey, hfalsy]
      have hOut : "Outros" ∈ NestedAccordionRenderer.firstKeys records f0 :=
        hkey ▸ hK2 item hitem
      refine ⟨NestedAccordionRenderer.groupByLevels
        (records.filter (fun it => NestedAccordionRenderer.groupKey it f0 = "Outros")) rest0,
        ?_, ?_⟩
      · show findKey _ "Outros" = _
        exact findKey_map_keys (NestedAccordionRenderer.firstKeys records f0)
          (fun k => NestedAccordionRenderer.groupByLevels
            (records.filter (fun it => NestedAccordionRenderer.groupKey it f0 = k)) rest0)
          "Outros" hOut
      · rw [(hTk "Outros" hOut).1.mem_iff]
        exact List.mem_filter.mpr ⟨hitem, by simp [hkey]⟩

/-- C5 (counterexample): the claim quantifies over every record list, but a
record whose grouping value is the literal string `"_isLeaf"` creates a
branch key that `countItems`/`getItems` mistake for the untyped leaf marker:
the one-record tree counts 0 items and flattens to nothing instead of
containing the record in exactly one leaf. -/
theorem grouping_isLeaf_collision :
    NestedAccordionRenderer.countItems
        (NestedAccordionRenderer.groupByLevels [[("G", Value.str "_isLeaf")]] ["G"]) = 0 ∧
    NestedAccordionRenderer.getItems
        (NestedAccordionRenderer.groupByLevels [[("G", Value.str "_isLeaf")]] ["G"]) = [] ∧
    ([[("G", Value.str "_isLeaf")]] : List Rec).length = 1 := by
  have htree : NestedAccordionRenderer.groupByLevels [[("G", Value.str "_isLeaf")]] ["G"] =
      .branch [("_isLeaf", .leaf [[("G", Value.str "_isLeaf")]])] := by
    rw [groupByLevels_cons]
    rw [show NestedAccordionRenderer.firstKeys [[("G", Value.str "_isLeaf")]] "G" = ["_isLeaf"]
      from by decide]
    simp only [List.map_cons, List.map_nil]
    rw [show List.filter
        (fun it => decide (NestedAccordionRenderer.groupKey it "G" = "_isLeaf"))
        [[("G", Value.str "_isLeaf")]] = [[("G", Value.str "_isLeaf")]] from by decide]
    simp [NestedAccordionRenderer.groupByLevels]
  refine ⟨?_, ?_, rfl⟩
  · rw [htree, NestedAccordionRenderer.countItems]
    simp [findKey]
  · rw [htree, NestedAccordionRenderer.getItems]
    simp [findKey]

/-- Witness for `grouping_complete` at the two-level state/city scenario. -/
theorem grouping_complete_witness :
    List.Perm
      (NestedAccordionRenderer.getItems
        (NestedAccordionRenderer.groupByLevels
          [[("STATE", Value.str "SP"), ("CITY", Value.str "SP-Capital")],
           [("STATE", Value.str "SP"), ("CITY", Value.str "Campinas")],
           [("STATE", Value.str "RJ"), ("CITY", Value.str "Rio")]]
          ["STATE", "CITY"]))
      [[("STATE", Value.str "SP"), ("CITY", Value.str "SP-Capital")],
       [("STATE", Value.str "SP"), ("CITY", Value.str "Campinas")],
       [("STATE", Value.str "RJ"), ("CITY", Value.str "Rio")]] ∧
    NestedAccordionRenderer.countItems
        (NestedAccordionRenderer.groupByLevels
          [[("STATE", Value.str "SP"), ("CITY", Value.str "SP-Capital")],
           [("STATE", Value.str "SP"), ("CITY", Value.str "Campinas")],
           [("STATE", Value.str "RJ"), ("CITY", Value.str "Rio")]]
          ["STATE", "CITY"]) =
      ([[("STATE", Value.str "SP"), ("CITY", Value.str "SP-Capital")],
        [("STATE", Value.str "SP"), ("CITY", Value.str "Campinas")],
        [("STATE", Value.str "RJ"), ("CITY", Value.str "Rio")]] : List Rec).length := by
  have h := grouping_complete ["STATE", "CITY"]
    [[("STATE", Value.str "SP"), ("CITY", Value.str "SP-Capital")],
     [("STATE", Value.str "SP"), ("CITY", Value.str "Campinas")],
     [("STATE", Value.str "RJ"), ("CITY", Value.str "Rio")]] (by decide)
  exact ⟨h.1, h.2.1⟩

/-- `findKey` on the empty map. -/
theorem findKey_nil {α : Type} (k : String) :
    findKey ([] : List (String × α)) k = none := rfl

/-- `findKey` unfolding on a cons cell. -/
theorem findKey_cons {α : Type} (k2 : String) (v : α) (rest : List (String × α))
    (k : String) :
    findKey ((k2, v) :: rest) k = if k2 = k then some v else findKey rest k := rfl

/-- `findKey` over an append: the left map wins. -/
theorem findKey_append {α : Type} (l1 l2 : List (String × α)) (k : String) :
    findKey (l1 ++ l2) k =
      (match findKey l1 k with
       | some v => some v
       | none => findKey l2 k) := by
  induction l1 with
  | nil => rfl
  | cons p t ih =>
    obtain ⟨pk, pv⟩ := p
    rw [List.cons_append, findKey_cons, findKey_cons]
    by_cases hp : pk = k
    · rw [if_pos hp, if_pos hp]
    · rw [if_neg hp, if_neg hp, ih]

/-- A map with no entry at a key finds nothing there. -/
theorem findKey_eq_none_of_any_false {α : Type} (k : String) :
    ∀ m : List (String × α), m.any (fun p => p.1 = k) = false →
    findKey m k = none := by
  intro m
  induction m with
  | nil => intro _; rfl
  | cons p t ih =>
    obtain ⟨pk, pv⟩ := p
    intro hany
    have hp : ¬ (pk = k) := by
      intro he
      simp [he] at hany
    have hany2 : t.any (fun p => p.1 = k) = false := by
      simpa [hp] using hany
    rw [findKey_cons, if_neg hp]
    exact ih hany2

/-- The overwrite pass of `Map.set` at the written key. -/
theorem findKey_map_replace {α : Type} (k : String) (v : α) :
    ∀ m : List (String × α), m.any (fun p => p.1 = k) = true →
    findKey (m.map (fun p => if p.1 = k then (k, v) else p)) k = some v := by
  intro m
  induction m with
  | nil => intro h; simp at h
  | cons p t ih =>
    obtain ⟨pk, pv⟩ := p
    intro hany
    by_cases hp : pk = k
    · subst hp
      simp [findKey_cons]
    · have hany2 : t.any (fun p => p.1 = k) = true := by
        simpa [hp] using hany
      simp only [List.map_cons]
      rw [show (if (pk, pv).1 = k then (k, v) else (pk, pv)) = (pk, pv) from by simp [hp],
        findKey_cons, if_neg hp]
      exact ih hany2

/-- The overwrite pass of `Map.set` at any other key. -/
theorem findKey_map_replace_ne {α : Type} (k : String) (v : α) (k2 : String)
    (h : k2 ≠ k) :
    ∀ m : List (String × α),
    findKey (m.map (fun p => if p.1 = k then (k, v) else p)) k2 = findKey m k2 := by
  intro m
  induction m with
  | nil => rfl
  | cons p t ih =>
    obtain ⟨pk, pv⟩ := p
    by_cases hp : pk = k
    · simp only [List.map_cons]
      rw [show (if (pk, pv).1 = k then (k, v) else (pk, pv)) = (k, v) from by simp [hp],
        findKey_cons, findKey_cons, if_neg (fun he => h he.symm),
        if_neg (fun he => h (hp ▸ he).symm)]
      exact ih
    · simp only [List.map_cons]
      rw [show (if (pk, pv).1 = k then (k, v) else (pk, pv)) = (pk, pv) from by simp [hp],
        findKey_cons, findKey_cons]
      by_cases hpk2 : pk = k2
      · rw [if_pos hpk2, if_pos hpk2]
      · rw [if_neg hpk2, if_neg hpk2, ih]

/-- `Map.set` then lookup at the same key. -/
theorem findKey_setEntry_self {α : Type} (m : List (String × α)) (k : String) (v : α) :
    findKey (setEntry m k v) k = some v := by
  unfold setEntry
  by_cases hany : m.any (fun p => p.1 = k) = true
  · rw [if_pos hany]
    exact findKey_map_replace k v m hany
  · rw [if_neg hany, findKey_append,
      findKey_eq_none_of_any_false k m (Bool.not_eq_true _ ▸ hany : _)]
    simp [findKey_cons]

/-- `Map.set` then lookup at a different key. -/
theorem findKey_setEntry_ne {α : Type} (m : List (String × α)) (k : String) (v : α)
    (k2 : String) (h : k2 ≠ k) : findKey (setEntry m k v) k2 = findKey m k2 := by
  unfold setEntry
  by_cases hany : m.any (fun p => p.1 = k) = true
  · rw [if_pos hany]
    exact findKey_map_replace_ne k v k2 h m
  · rw [if_neg hany, findKey_append]
    cases hm : findKey m k2 with
    | some v2 => rfl
    | none =>
      rw [findKey_cons, if_neg (fun he => h he.symm)]
      rfl

/-- One loop iteration writes exactly the column's own entry. -/
theorem processColumn_map_eq (sample : List Rec) (acc : ColumnWidthUtils.WAcc)
    (col : ColumnWidthUtils.Column) :
    (ColumnWidthUtils.processColumn sample acc col).map =
      setEntry acc.map col.field (ColumnWidthUtils.widthValueOf sample col) := by
  by_cases h1 : ColumnWidthUtils.isLocked col
  · simp [ColumnWidthUtils.processColumn, ColumnWidthUtils.widthValueOf, h1]
  · by_cases h2 : truthy col.width ∧ col.width ≠ .str "auto"
    · cases hp : parseIntJS col.width with
      | some p =>
        by_cases h3 : truthy col.title && Q.blt (Q.ofInt p)
            (ColumnWidthUtils.calculateMinHeaderWidth col.title)
        · simp [ColumnWidthUtils.processColumn, ColumnWidthUtils.widthValueOf, h1, h2, hp, h3]
        · simp [ColumnWidthUtils.processColumn, ColumnWidthUtils.widthValueOf, h1, h2, hp, h3]
      | none =>
        simp [ColumnWidthUtils.processColumn, ColumnWidthUtils.widthValueOf, h1, h2, hp]
    · simp only [ColumnWidthUtils.processColumn, ColumnWidthUtils.widthValueOf, h1, h2,
        if_false, Bool.false_eq_true, if_neg (fun he => h1 he), if_neg h2]
      split <;> rfl

/-- Columns that never mention a key leave its entry untouched. -/
theorem foldl_processColumn_preserves (sample : List Rec)
    (cols : List ColumnWidthUtils.Column) (k : String)
    (h : ∀ c ∈ cols, c.field ≠ k) :
    ∀ acc : ColumnWidthUtils.WAcc,
    findKey (cols.foldl (ColumnWidthUtils.processColumn sample) acc).map k =
      findKey acc.map k := by
  induction cols with
  | nil => intro acc; rfl
  | cons c t ih =>
    intro acc
    rw [List.foldl_cons,
      ih (fun c2 hc2 => h c2 (List.mem_cons_of_mem c hc2)),
      processColumn_map_eq,
      findKey_setEntry_ne _ _ _ _ (Ne.symm (h c (List.mem_cons_self c t)))]

/-- After the per-column loop, each column's entry holds its own resolved
value (distinct field names assumed, as in any real column list). -/
theorem foldl_processColumn_findKey (sample : List Rec)
    (cols : List ColumnWidthUtils.Column) (col : ColumnWidthUtils.Column)
    (hc : col ∈ cols) (hnd : (cols.map (fun c => c.field)).Nodup) :
    ∀ acc : ColumnWidthUtils.WAcc,
    findKey (cols.foldl (ColumnWidthUtils.processColumn sample) acc).map col.field =
      some (ColumnWidthUtils.widthValueOf sample col) := by
  induction cols with
  | nil => cases hc
  | cons c t ih =>
    intro acc
    rcases List.mem_cons.mp hc with he | ht
    · subst he
      have hnotin : col.field ∉ t.map (fun c => c.field) :=
        (List.nodup_cons.mp hnd).1
      have hne : ∀ c2 ∈ t, c2.field ≠ col.field := by
        intro c2 hc2 he2
        exact hnotin (he2 ▸ List.mem_map_of_mem (fun c => c.field) hc2)
      rw [List.foldl_cons, foldl_processColumn_preserves sample t col.field hne,
        processColumn_map_eq, findKey_setEntry_self]
    · rw [List.foldl_cons]
      exact ih ht ((List.nodup_cons.mp hnd).2) _

/-- After the hero election over a map, a key's entry is either untouched or
replaced by `null` (flexible). -/
theorem findKey_hero_cases (M : List (String × Option Value)) (f k : String)
    (v : Option Value) (hk : findKey M k = some v) :
    findKey (if f ≠ "" ∧ (findKey M f).isSome then setEntry M f none else M) k = some v ∨
    findKey (if f ≠ "" ∧ (findKey M f).isSome then setEntry M f none else M) k = some none := by
  by_cases hcond : f ≠ "" ∧ (findKey M f).isSome
  · rw [if_pos hcond]
    by_cases hfk : f = k
    · subst hfk
      exact Or.inr (findKey_setEntry_self M f none)
    · exact Or.inl ((findKey_setEntry_ne M f none k (fun he => hfk he.symm)).trans hk)
  · rw [if_neg hcond]
    exact Or.inl hk

/-- C8 (counterexample): the claim says a configured width below the
header-safety floor always resolves to the floor.  A single column titled
`"X"` with width `"50"` is first raised to the floor
`ceil(1*8.5+40+25+15) = 89`, but with viewport 1920 the table (89px) fits
the available space and no text column was sampled, so the fallback hero
election picks this very column and replaces its width with `null`
(flexible) — the resolved width is not the floor. -/
theorem width_floor_overridden_by_hero :
    ColumnWidthUtils.calculateMinHeaderWidth (Value.str "X") = Q.ofInt 89 ∧
    findKey
        (ColumnWidthUtils.computeAutoWidths
          [{ field := "A", title := .str "X", width := .str "50", type := none }]
          [] [] .null 1920)
        "A" = some none := by
  refine ⟨by decide, by decide⟩

/-- C8 (amended): for every column with a truthy title and a truthy
configured width other than `'auto'` that parses to an integer, the
resolved entry after `computeAutoWidths` is the header-safety floor when the
configured value parses below the floor, and the raw configured value
otherwise — unless the hero election (table fits the viewport) subsequently
replaces that column's entry with `null` (flexible).  Field names are
assumed distinct, as in any real column list. -/
theorem config_width_floor_unless_hero
    (columns : List ColumnWidthUtils.Column) (data : List Rec)
    (actionsDef : List ColumnWidthUtils.ActionDef) (ow : Value) (viewport : Q)
    (col : ColumnWidthUtils.Column) (hc : col ∈ columns)
    (hnd : (columns.map (fun c => c.field)).Nodup)
    (hlock : ColumnWidthUtils.isLocked col = false)
    (hw : truthy col.width = true) (hauto : col.width ≠ .str "auto")
    (p : Int) (hp : parseIntJS col.width = some p)
    (htitle : truthy col.title = true) :
    (Q.blt (Q.ofInt p) (ColumnWidthUtils.calculateMinHeaderWidth col.title) = true →
      findKey (ColumnWidthUtils.computeAutoWidths columns data actionsDef ow viewport)
          col.field =
        some (some (.num (ColumnWidthUtils.calculateMinHeaderWidth col.title))) ∨
      findKey (ColumnWidthUtils.computeAutoWidths columns data actionsDef ow viewport)
          col.field = some none) ∧
    (Q.blt (Q.ofInt p) (ColumnWidthUtils.calculateMinHeaderWidth col.title) = false →
      findKey (ColumnWidthUtils.computeAutoWidths columns data actionsDef ow viewport)
          col.field = some (some col.width) ∨
      findKey (ColumnWidthUtils.computeAutoWidths columns data actionsDef ow viewport)
          col.field = some none) := by
  have key : ∀ v : Option Value,
      ColumnWidthUtils.widthValueOf (data.take 100) col = v →
      findKey (ColumnWidthUtils.computeAutoWidths columns data actionsDef ow viewport)
          col.field = some v ∨
      findKey (ColumnWidthUtils.computeAutoWidths columns data actionsDef ow viewport)
          col.field = some none := by
    intro v hv
    have hM := foldl_processColumn_findKey (data.take 100) columns col hc hnd
      { map := [("actions",
          some (.num (ColumnWidthUtils.actionsEntry actionsDef ow)))],
        total := ColumnWidthUtils.actionsEntry actionsDef ow,
        longest := none, maxCalc := 0 }
    rw [hv] at hM
    unfold ColumnWidthUtils.computeAutoWidths
    dsimp only
    split
    · split
      · exact findKey_hero_cases _ _ _ _ hM
      · exact Or.inl hM
    · exact Or.inl hM
  constructor
  · intro hblt
    apply key
    unfold ColumnWidthUtils.widthValueOf
    rw [if_neg (by simp [hlock]), if_pos ⟨hw, hauto⟩, hp]
    dsimp only
    rw [if_pos (by simp [htitle, hblt])]
  · intro hblt
    apply key
    unfold ColumnWidthUtils.widthValueOf
    rw [if_neg (by simp [hlock]), if_pos ⟨hw, hauto⟩, hp]
    dsimp only
    rw [if_neg (by simp [htitle, hblt])]

/-- Witness for `config_width_floor_unless_hero`: one raised column and one
honored column, with a viewport too small for a hero election. -/
theorem config_width_floor_unless_hero_witness :
    findKey
        (ColumnWidthUtils.computeAutoWidths
          [{ field := "A", title := .str "X", width := .str "50", type := none },
           { field := "B", title := .str "Y", width := .str "200", type := none }]
          [] [] .null 100)
        "A" =
      some (some (.num (ColumnWidthUtils.calculateMinHeaderWidth (Value.str "X")))) ∨
    findKey
        (ColumnWidthUtils.computeAutoWidths
          [{ field := "A", title := .str "X", width := .str "50", type := none },
           { field := "B", title := .str "Y", width := .str "200", type := none }]
          [] [] .null 100)
        "A" = some none :=
  (config_width_floor_unless_hero
    [{ field := "A", title := .str "X", width := .str "50", type := none },
     { field := "B", title := .str "Y", width := .str "200", type := none }]
    [] [] .null 100
    { field := "A", title := .str "X", width := .str "50", type := none }
    (List.mem_cons_self _ _) (by decide) (by decide) (by decide) (by decide)
    50 (by decide) (by decide)).1 (by decide)
